import Mathlib

/-!
Shallow embedding of the KITT order-ledger subsystem
(src/services/orders/models.py, storage.py, api.py).

Modelling conventions:
* SQLite rows are Lean structures; the `orders` table is a list of rows plus
  the AUTOINCREMENT counter (`next_id`), which SQLite keeps strictly above
  every id ever issued.
* `datetime` values are modelled as integers (seconds since an epoch, so
  `timedelta(days=7)` is `7 * 86400`).  The code stores
  `datetime.isoformat()` strings and compares them
  with SQLite TEXT comparison; for the fixed-width UTC ISO-8601 strings the
  code produces, lexicographic order agrees with chronological order, so an
  integer timestamp with the usual order is a faithful abstraction.
* JSON-serialisable metadata is the inductive `Json` (numbers modelled as
  integers).  `Json.dumps` follows Python's `json.dumps` with its default
  arguments (separators, `ensure_ascii=True` escaping, surrogate pairs);
  `Json.loads` is a recursive-descent parser for the grammar accepted by
  `json.loads`, restricted to integer numerals.  The parser is lenient in a
  few places where Python is strict (leading zeros, raw control characters
  in strings); these differences are invisible both on the image of
  `Json.dumps` and on the corrupt blobs used below.
* Raising an exception is modelled by `Except`; a fallible operation returns
  the resulting store alongside its result, so "state unchanged" is statable.
-/

/-- JSON-compatible values: arbitrary nesting of string-keyed maps, lists,
strings, (integer) numbers, booleans and null.  Maps and lists keep insertion
order, as Python `dict`/`list` do. -/
inductive Json where
  | jnull : Json
  | jbool (b : Bool) : Json
  | jnum (n : Int) : Json
  | jstr (s : String) : Json
  | jarr (items : List Json) : Json
  | jdict (pairs : List (String × Json)) : Json

/-- Opening brace character (written via its code point). -/
def lbrace : Char := Char.ofNat 123

/-- Closing brace character (written via its code point). -/
def rbrace : Char := Char.ofNat 125

/-- Lower-case hexadecimal digit, as `"%x"` formatting produces. -/
def hexDig (k : Nat) : Char :=
  if k < 10 then Char.ofNat (48 + k) else Char.ofNat (87 + k)

/-- Four-digit hexadecimal rendering used by `\uXXXX` escapes. -/
def hex4 (n : Nat) : List Char :=
  [hexDig (n / 4096 % 16), hexDig (n / 256 % 16), hexDig (n / 16 % 16), hexDig (n % 16)]

/-- `json.dumps` escaping of one character (`ensure_ascii=True` default):
short escapes for the two-character sequences in `ESCAPE_DCT`, printable
ASCII kept literal, everything else as `\uXXXX` (surrogate pairs above
`0xFFFF`). -/
def escChar (c : Char) : List Char :=
  if c = '"' then ['\\', '"']
  else if c = '\\' then ['\\', '\\']
  else if c = Char.ofNat 8 then ['\\', 'b']
  else if c = Char.ofNat 9 then ['\\', 't']
  else if c = Char.ofNat 10 then ['\\', 'n']
  else if c = Char.ofNat 12 then ['\\', 'f']
  else if c = Char.ofNat 13 then ['\\', 'r']
  else if 32 ≤ c.toNat ∧ c.toNat ≤ 126 then [c]
  else if c.toNat < 65536 then '\\' :: 'u' :: hex4 c.toNat
  else '\\' :: 'u' :: hex4 (55296 + (c.toNat - 65536) / 1024) ++
       '\\' :: 'u' :: hex4 (56320 + (c.toNat - 65536) % 1024)

/-- Escaped body of a JSON string literal. -/
def escBody (cs : List Char) : List Char := (cs.map escChar).flatten

/-- `json.dumps` rendering of a string, including the surrounding quotes. -/
def dumpStr (s : String) : List Char := '"' :: escBody s.data ++ ['"']

/-- Decimal digit character. -/
def digCh (k : Nat) : Char := Char.ofNat (48 + k)

/-- Decimal rendering of a natural number (fuelled so that it reduces in the
kernel); `natCharsAux (n+1) n` always has enough fuel. -/
def natCharsAux : Nat → Nat → List Char
  | 0, _ => []
  | _ + 1, n =>
    if n < 10 then [digCh n]
    else natCharsAux n (n / 10) ++ [digCh (n % 10)]

/-- Decimal rendering of a natural number, most significant digit first. -/
def natChars (n : Nat) : List Char := natCharsAux (n + 1) n

/-- Decimal rendering of an integer, as `repr(int)` produces. -/
def intChars (n : Int) : List Char :=
  if n < 0 then '-' :: natChars n.natAbs else natChars n.toNat

mutual

/-- Size measure used as parser fuel (one unit per JSON node). -/
def Json.size : Json → Nat
  | .jnull => 1
  | .jbool _ => 1
  | .jnum _ => 1
  | .jstr _ => 1
  | .jarr es => 1 + Json.sizeArr es
  | .jdict kvs => 1 + Json.sizeObj kvs

/-- Size of an array body. -/
def Json.sizeArr (items : List Json) : Nat :=
  match items with
  | [] => 0
  | j :: js => 1 + Json.size j + Json.sizeArr js

/-- Size of an object body. -/
def Json.sizeObj (pairs : List (String × Json)) : Nat :=
  match pairs with
  | [] => 0
  | kv :: kvs => 1 + Json.size kv.2 + Json.sizeObj kvs

end

mutual

/-- `json.dumps` with its default arguments: item separator `", "`, key
separator `": "`, `ensure_ascii=True`. -/
def Json.dumps : Json → List Char
  | .jnull => "null".data
  | .jbool true => "true".data
  | .jbool false => "false".data
  | .jnum n => intChars n
  | .jstr s => dumpStr s
  | .jarr es => '[' :: Json.dumpArr es ++ [']']
  | .jdict kvs => lbrace :: Json.dumpObj kvs ++ [rbrace]

/-- Array body, items separated by `", "`. -/
def Json.dumpArr : List Json → List Char
  | [] => []
  | [j] => Json.dumps j
  | j :: js => Json.dumps j ++ ',' :: ' ' :: Json.dumpArr js

/-- Object body, `"key": value` pairs separated by `", "`. -/
def Json.dumpObj : List (String × Json) → List Char
  | [] => []
  | [(k, v)] => dumpStr k ++ ':' :: ' ' :: Json.dumps v
  | (k, v) :: kvs => dumpStr k ++ ':' :: ' ' :: Json.dumps v ++ ',' :: ' ' :: Json.dumpObj kvs

end

/-- JSON whitespace, as skipped by `json.loads`. -/
def isWs (c : Char) : Bool :=
  c = ' ' || c = Char.ofNat 9 || c = Char.ofNat 10 || c = Char.ofNat 13

/-- Drop leading JSON whitespace. -/
def skipWs (l : List Char) : List Char := l.dropWhile isWs

/-- Value of one hexadecimal digit (either case). -/
def hexVal (c : Char) : Option Nat :=
  if 48 ≤ c.toNat ∧ c.toNat ≤ 57 then some (c.toNat - 48)
  else if 97 ≤ c.toNat ∧ c.toNat ≤ 102 then some (c.toNat - 87)
  else if 65 ≤ c.toNat ∧ c.toNat ≤ 70 then some (c.toNat - 55)
  else none

/-- Inverse of the two-character escapes accepted inside JSON strings. -/
def escUn (e : Char) : Option Char :=
  if e = '"' then some '"'
  else if e = '\\' then some '\\'
  else if e = '/' then some '/'
  else if e = 'b' then some (Char.ofNat 8)
  else if e = 't' then some (Char.ofNat 9)
  else if e = 'n' then some (Char.ofNat 10)
  else if e = 'f' then some (Char.ofNat 12)
  else if e = 'r' then some (Char.ofNat 13)
  else none

/-- Decode the low half of a surrogate pair: `code` is the high surrogate
already read, and the input must continue with `\uXXXX` for a low
surrogate. -/
def decodeSurr (code : Nat) : List Char → Option (Char × List Char)
  | b1 :: b2 :: g1 :: g2 :: g3 :: g4 :: rest4 =>
    if b1 = '\\' ∧ b2 = 'u' then
      match hexVal g1, hexVal g2, hexVal g3, hexVal g4 with
      | some w1, some w2, some w3, some w4 =>
        let lo := ((w1 * 16 + w2) * 16 + w3) * 16 + w4
        if 56320 ≤ lo ∧ lo < 57344 then
          some (Char.ofNat (65536 + (code - 55296) * 1024 + (lo - 56320)), rest4)
        else none
      | _, _, _, _ => none
    else none
  | _ => none

/-- Decode four hex digits after `\u`: either a scalar value directly, or
the high half of a surrogate pair. -/
def decodeU4 (h1 h2 h3 h4 : Char) (rest3 : List Char) : Option (Char × List Char) :=
  match hexVal h1, hexVal h2, hexVal h3, hexVal h4 with
  | some v1, some v2, some v3, some v4 =>
    let code := ((v1 * 16 + v2) * 16 + v3) * 16 + v4
    if code < 55296 ∨ 57344 ≤ code then some (Char.ofNat code, rest3)
    else if code < 56320 then decodeSurr code rest3
    else none
  | _, _, _, _ => none

/-- Decode a `\uXXXX` escape (the `\u` already consumed). -/
def decodeU : List Char → Option (Char × List Char)
  | h1 :: h2 :: h3 :: h4 :: rest3 => decodeU4 h1 h2 h3 h4 rest3
  | _ => none

/-- Decode one backslash escape (the backslash itself already consumed):
either a two-character escape, a `\uXXXX` scalar, or a surrogate pair.
Returns the decoded character and the remaining input. -/
def decodeEsc : List Char → Option (Char × List Char)
  | [] => none
  | e :: rest =>
    if e = 'u' then decodeU rest
    else
      match escUn e with
      | some u => some (u, rest)
      | none => none

/-- Parse the body of a JSON string literal (opening quote already consumed)
up to and including the closing quote.  The fuel only needs to exceed the
number of decoded characters; one unit is spent per decoded character. -/
def parseStrBody : Nat → List Char → Option (List Char × List Char)
  | 0, _ => none
  | _ + 1, [] => none
  | fuel + 1, c :: rest =>
    if c = '"' then some ([], rest)
    else if c = '\\' then
      match decodeEsc rest with
      | some (u, rest2) =>
        match parseStrBody fuel rest2 with
        | some (cs, r) => some (u :: cs, r)
        | none => none
      | none => none
    else
      match parseStrBody fuel rest with
      | some (cs, r) => some (c :: cs, r)
      | none => none

/-- Run of decimal digits folded into an accumulator; stops at the first
non-digit. -/
def parseDigits : List Char → Nat → Nat × List Char
  | [], acc => (acc, [])
  | c :: rest, acc =>
    if c.isDigit then parseDigits rest (acc * 10 + (c.toNat - 48))
    else (acc, c :: rest)

/-- Parse an (integer) JSON numeral: optional minus sign followed by at least
one digit. -/
def parseNum (l : List Char) : Option (Int × List Char) :=
  match l with
  | [] => none
  | c :: rest =>
    if c = '-' then
      match rest with
      | [] => none
      | d :: rest2 =>
        if d.isDigit then
          let p := parseDigits (d :: rest2) 0
          some (-(p.1 : Int), p.2)
        else none
    else if c.isDigit then
      let p := parseDigits (c :: rest) 0
      some ((p.1 : Int), p.2)
    else none

mutual

/-- Recursive-descent JSON value parser (the scanner inside `json.loads`).
The fuel decreases once per parsed node. -/
def parseVal : Nat → List Char → Option (Json × List Char)
  | 0, _ => none
  | fuel + 1, s =>
    match skipWs s with
    | [] => none
    | c :: rest =>
      if c = '"' then
        match parseStrBody (rest.length + 1) rest with
        | some (cs, r) => some (Json.jstr (String.mk cs), r)
        | none => none
      else if c = '[' then
        match skipWs rest with
        | [] => none
        | d :: rest2 =>
          if d = ']' then some (Json.jarr [], rest2)
          else
            match parseItems fuel (d :: rest2) with
            | some (es, r) => some (Json.jarr es, r)
            | none => none
      else if c = lbrace then
        match skipWs rest with
        | [] => none
        | d :: rest2 =>
          if d = rbrace then some (Json.jdict [], rest2)
          else
            match parseFields fuel (d :: rest2) with
            | some (kvs, r) => some (Json.jdict kvs, r)
            | none => none
      else if c = 't' then
        if rest.take 3 = ['r', 'u', 'e'] then some (Json.jbool true, rest.drop 3) else none
      else if c = 'f' then
        if rest.take 4 = ['a', 'l', 's', 'e'] then some (Json.jbool false, rest.drop 4) else none
      else if c = 'n' then
        if rest.take 3 = ['u', 'l', 'l'] then some (Json.jnull, rest.drop 3) else none
      else
        match parseNum (c :: rest) with
        | some (n, r) => some (Json.jnum n, r)
        | none => none

/-- Parse the non-empty item list of a JSON array, up to and including the
closing bracket. -/
def parseItems : Nat → List Char → Option (List Json × List Char)
  | 0, _ => none
  | fuel + 1, s =>
    match parseVal fuel s with
    | none => none
    | some (j, r) =>
      match skipWs r with
      | [] => none
      | d :: r2 =>
        if d = ',' then
          match parseItems fuel r2 with
          | some (es, r3) => some (j :: es, r3)
          | none => none
        else if d = ']' then some ([j], r2)
        else none

/-- Parse the non-empty member list of a JSON object, up to and including the
closing brace. -/
def parseFields : Nat → List Char → Option (List (String × Json) × List Char)
  | 0, _ => none
  | fuel + 1, s =>
    match skipWs s with
    | [] => none
    | c :: rest =>
      if c = '"' then
        match parseStrBody (rest.length + 1) rest with
        | none => none
        | some (kcs, r2) =>
          match skipWs r2 with
          | [] => none
          | d :: r3 =>
            if d = ':' then
              match parseVal fuel r3 with
              | none => none
              | some (v, r4) =>
                match skipWs r4 with
                | [] => none
                | e :: r5 =>
                  if e = ',' then
                    match parseFields fuel r5 with
                    | some (kvs, r6) => some ((String.mk kcs, v) :: kvs, r6)
                    | none => none
                  else if e = rbrace then some ([(String.mk kcs, v)], r5)
                  else none
            else none
      else none

end

/-- `json.loads`: parse one value and require only whitespace to follow.
`length + 1` units of fuel always suffice since every node consumes at least
one character. -/
def Json.loads (blob : List Char) : Option Json :=
  match parseVal (blob.length + 1) blob with
  | some (j, r) => if skipWs r = [] then some j else none
  | none => none

/-- True when the list does not start with a decimal digit; a numeral
followed by such a list parses unambiguously. -/
def noLeadDigit : List Char → Bool
  | [] => true
  | c :: _ => !c.isDigit

theorem isDigit_ne {c : Char} (h : c.isDigit = true) {d : Char}
    (hd : d.isDigit = false) : c ≠ d := by
  intro e
  subst e
  rw [h] at hd
  cases hd

theorem isWs_of_isDigit {c : Char} (h : c.isDigit = true) : isWs c = false := by
  have h1 : c ≠ ' ' := isDigit_ne h (by decide)
  have h2 : c ≠ Char.ofNat 9 := isDigit_ne h (by decide)
  have h3 : c ≠ Char.ofNat 10 := isDigit_ne h (by decide)
  have h4 : c ≠ Char.ofNat 13 := isDigit_ne h (by decide)
  simp [isWs, h1, h2, h3, h4]

theorem hexVal_hexDig (k : Nat) (h : k < 16) : hexVal (hexDig k) = some k := by
  interval_cases k <;> decide

theorem digCh_isDigit (k : Nat) (h : k < 10) : (digCh k).isDigit = true := by
  interval_cases k <;> decide

theorem digCh_toNat (k : Nat) (h : k < 10) : (digCh k).toNat = 48 + k := by
  interval_cases k <;> decide

theorem natCharsAux_irrel : ∀ f1 f2 n, n < f1 → n < f2 →
    natCharsAux f1 n = natCharsAux f2 n := by
  intro f1
  induction f1 with
  | zero => intro f2 n h1; omega
  | succ g ih =>
    intro f2 n h1 h2
    cases f2 with
    | zero => omega
    | succ k =>
      by_cases hn : n < 10
      · simp [natCharsAux, hn]
      · simp only [natCharsAux, hn, if_false]

theorem natChars_base (n : Nat) (h : n < 10) : natChars n = [digCh n] := by
  simp [natChars, natCharsAux, h]

theorem natChars_step (n : Nat) (h : 10 ≤ n) :
    natChars n = natChars (n / 10) ++ [digCh (n % 10)] := by
  have h1 : ¬ n < 10 := by omega
  have h2 : n / 10 < n := by omega
  have h3 : n / 10 < n / 10 + 1 := by omega
  rw [natChars, natChars, natCharsAux_irrel (n / 10 + 1) n (n / 10) h3 h2]
  simp only [natCharsAux, h1, if_false]

theorem natChars_head (n : Nat) :
    ∃ c t, natChars n = c :: t ∧ c.isDigit = true := by
  induction n using Nat.strong_induction_on with
  | _ n ih =>
    by_cases h : n < 10
    · exact ⟨digCh n, [], natChars_base n h, digCh_isDigit n h⟩
    · obtain ⟨c, t, hct, hd⟩ := ih (n / 10) (by omega)
      refine ⟨c, t ++ [digCh (n % 10)], ?_, hd⟩
      rw [natChars_step n (by omega), hct]
      simp

theorem parseDigits_stop (l : List Char) (acc : Nat) (h : noLeadDigit l = true) :
    parseDigits l acc = (acc, l) := by
  cases l with
  | nil => rfl
  | cons c t =>
    simp only [noLeadDigit, Bool.not_eq_true'] at h
    simp [parseDigits, h]

theorem parseDigits_natChars (n : Nat) : ∀ acc rest,
    parseDigits (natChars n ++ rest) acc =
      parseDigits rest (acc * 10 ^ (natChars n).length + n) := by
  induction n using Nat.strong_induction_on with
  | _ n ih =>
    intro acc rest
    by_cases h : n < 10
    · rw [natChars_base n h]
      simp [parseDigits, digCh_isDigit n h, digCh_toNat n h]
    · rw [natChars_step n (by omega), List.append_assoc, List.cons_append,
        List.length_append]
      rw [ih (n / 10) (by omega)]
      have hm : n % 10 < 10 := by omega
      simp only [parseDigits, digCh_isDigit (n % 10) hm, if_true,
        digCh_toNat (n % 10) hm, List.length_cons, List.length_nil]
      have harg : (acc * 10 ^ (natChars (n / 10)).length + n / 10) * 10 +
          (48 + n % 10 - 48) = acc * 10 ^ ((natChars (n / 10)).length + (0 + 1)) + n := by
        have hdm := Nat.div_add_mod n 10
        have hp : 10 ^ ((natChars (n / 10)).length + (0 + 1)) =
            10 ^ (natChars (n / 10)).length * 10 := by
          rw [Nat.add_comm, Nat.pow_add]
          ring
        rw [hp]
        ring_nf
        omega
      rw [harg, List.nil_append]

theorem parseNum_natChars (m : Nat) (rest : List Char) (h : noLeadDigit rest = true) :
    parseNum (natChars m ++ rest) = some ((m : Int), rest) := by
  obtain ⟨c, t, hct, hd⟩ := natChars_head m
  rw [hct, List.cons_append]
  have hne : c ≠ '-' := isDigit_ne hd (by decide)
  simp only [parseNum, hne, if_false, hd, if_true]
  rw [← List.cons_append, ← hct, parseDigits_natChars m 0 rest]
  simp [parseDigits_stop rest m h]

theorem parseNum_intChars (n : Int) (rest : List Char) (h : noLeadDigit rest = true) :
    parseNum (intChars n ++ rest) = some (n, rest) := by
  by_cases hn : n < 0
  · have hstep : parseDigits (natChars n.natAbs ++ rest) 0 = (n.natAbs, rest) := by
      rw [parseDigits_natChars n.natAbs 0 rest]
      simp [parseDigits_stop rest _ h]
    obtain ⟨c, t, hct, hd⟩ := natChars_head n.natAbs
    rw [hct, List.cons_append] at hstep
    have hgoal : intChars n ++ rest = '-' :: c :: (t ++ rest) := by
      simp only [intChars, hn, if_true, hct]
      simp
    rw [hgoal]
    simp only [parseNum, hd, if_true, reduceIte, hstep]
    have habs : -(n.natAbs : Int) = n := by omega
    rw [habs]
  · simp only [intChars, hn, if_false]
    rw [parseNum_natChars n.toNat rest h]
    have htn : ((n.toNat : Nat) : Int) = n := by omega
    rw [htn]

theorem decodeEsc_esc2 (e u : Char) (X : List Char)
    (he : escUn e = some u) (hne : e ≠ 'u') :
    decodeEsc (e :: X) = some (u, X) := by
  simp only [decodeEsc, hne, if_false, he]

theorem hex4_each (m : Nat) :
    hexVal (hexDig (m / 4096 % 16)) = some (m / 4096 % 16) ∧
    hexVal (hexDig (m / 256 % 16)) = some (m / 256 % 16) ∧
    hexVal (hexDig (m / 16 % 16)) = some (m / 16 % 16) ∧
    hexVal (hexDig (m % 16)) = some (m % 16) :=
  ⟨hexVal_hexDig _ (by omega), hexVal_hexDig _ (by omega),
   hexVal_hexDig _ (by omega), hexVal_hexDig _ (by omega)⟩

theorem hex4_recon (m : Nat) (hm : m < 65536) :
    ((m / 4096 % 16 * 16 + m / 256 % 16) * 16 + m / 16 % 16) * 16 + m % 16 = m := by
  omega

theorem decodeU_cons (a b c d : Char) (T : List Char) :
    decodeU (a :: b :: c :: d :: T) = decodeU4 a b c d T := rfl

theorem decodeU4_scalar (m : Nat) (X : List Char)
    (hm : m < 65536) (hval : m < 55296 ∨ 57344 ≤ m) :
    decodeU4 (hexDig (m / 4096 % 16)) (hexDig (m / 256 % 16))
      (hexDig (m / 16 % 16)) (hexDig (m % 16)) X = some (Char.ofNat m, X) := by
  obtain ⟨e1, e2, e3, e4⟩ := hex4_each m
  simp only [decodeU4, e1, e2, e3, e4]
  rw [hex4_recon m hm]
  simp only [hval, if_true, reduceIte]

theorem decodeU4_hi (m : Nat) (X : List Char)
    (hm1 : 55296 ≤ m) (hm2 : m < 56320) :
    decodeU4 (hexDig (m / 4096 % 16)) (hexDig (m / 256 % 16))
      (hexDig (m / 16 % 16)) (hexDig (m % 16)) X = decodeSurr m X := by
  obtain ⟨e1, e2, e3, e4⟩ := hex4_each m
  simp only [decodeU4, e1, e2, e3, e4]
  rw [hex4_recon m (by omega)]
  have hg1 : ¬ (m < 55296 ∨ 57344 ≤ m) := by omega
  have hg2 : m < 56320 := by omega
  simp only [hg1, if_false, hg2, if_true, reduceIte]

theorem decodeU_hex4 (m : Nat) (X : List Char)
    (hm : m < 65536) (hval : m < 55296 ∨ 57344 ≤ m) :
    decodeU (hex4 m ++ X) = some (Char.ofNat m, X) := by
  rw [show hex4 m ++ X = hexDig (m / 4096 % 16) :: hexDig (m / 256 % 16) ::
    hexDig (m / 16 % 16) :: hexDig (m % 16) :: X from rfl]
  rw [decodeU_cons]
  exact decodeU4_scalar m X hm hval

theorem decodeEsc_u (T : List Char) : decodeEsc ('u' :: T) = decodeU T := rfl

theorem decodeEsc_u4 (m : Nat) (X : List Char)
    (hm : m < 65536) (hval : m < 55296 ∨ 57344 ≤ m) :
    decodeEsc ('u' :: (hex4 m ++ X)) = some (Char.ofNat m, X) := by
  rw [decodeEsc_u]
  exact decodeU_hex4 m X hm hval

theorem decodeSurr_hex4 (hi : Nat) (m : Nat) (X : List Char)
    (hhi : hi = 55296 + (m - 65536) / 1024)
    (hm1 : 65536 ≤ m) (hm2 : m < 1114112) :
    decodeSurr hi ('\\' :: 'u' :: (hex4 (56320 + (m - 65536) % 1024) ++ X)) =
      some (Char.ofNat m, X) := by
  have hlo : 56320 + (m - 65536) % 1024 < 65536 := by omega
  obtain ⟨g1, g2, g3, g4⟩ := hex4_each (56320 + (m - 65536) % 1024)
  simp only [hex4, List.cons_append, List.nil_append]
  simp only [decodeSurr, and_self, if_pos rfl, g1, g2, g3, g4]
  rw [hex4_recon _ hlo]
  have hg3 : 56320 ≤ 56320 + (m - 65536) % 1024 ∧ 56320 + (m - 65536) % 1024 < 57344 := by
    omega
  simp only [hg3, and_true, if_true, reduceIte]
  have hchar : 65536 + (hi - 55296) * 1024 + (56320 + (m - 65536) % 1024 - 56320) = m := by
    omega
  rw [hchar]

theorem decodeEsc_surr (m : Nat) (X : List Char)
    (hm1 : 65536 ≤ m) (hm2 : m < 1114112) :
    decodeEsc ('u' :: (hex4 (55296 + (m - 65536) / 1024) ++
       ('\\' :: 'u' :: (hex4 (56320 + (m - 65536) % 1024) ++ X)))) =
      some (Char.ofNat m, X) := by
  rw [decodeEsc_u]
  rw [show hex4 (55296 + (m - 65536) / 1024) ++
      ('\\' :: 'u' :: (hex4 (56320 + (m - 65536) % 1024) ++ X)) =
      hexDig ((55296 + (m - 65536) / 1024) / 4096 % 16) ::
      hexDig ((55296 + (m - 65536) / 1024) / 256 % 16) ::
      hexDig ((55296 + (m - 65536) / 1024) / 16 % 16) ::
      hexDig ((55296 + (m - 65536) / 1024) % 16) ::
      ('\\' :: 'u' :: (hex4 (56320 + (m - 65536) % 1024) ++ X)) from rfl]
  rw [decodeU_cons]
  rw [decodeU4_hi (55296 + (m - 65536) / 1024) _ (by omega) (by omega)]
  exact decodeSurr_hex4 (55296 + (m - 65536) / 1024) m X rfl hm1 hm2

theorem parseStrBody_quote (f : Nat) (rest : List Char) :
    parseStrBody (f + 1) ('"' :: rest) = some ([], rest) := by
  simp [parseStrBody]

theorem parseStrBody_bs (f : Nat) (X X2 : List Char) (u : Char)
    (h : decodeEsc X = some (u, X2)) :
    parseStrBody (f + 1) ('\\' :: X) =
      match parseStrBody f X2 with
      | some p => some (u :: p.1, p.2)
      | none => none := by
  have h1 : ('\\' : Char) ≠ '"' := by decide
  simp only [parseStrBody, h1, if_false, if_pos rfl, h]
  cases parseStrBody f X2 with
  | none => rfl
  | some p => rfl

theorem parseStrBody_lit (f : Nat) (c : Char) (X : List Char)
    (h1 : c ≠ '"') (h2 : c ≠ '\\') :
    parseStrBody (f + 1) (c :: X) =
      match parseStrBody f X with
      | some p => some (c :: p.1, p.2)
      | none => none := by
  simp only [parseStrBody, h1, if_false, h2]
  cases parseStrBody f X with
  | none => rfl
  | some p => rfl

theorem char_valid_nat (c : Char) :
    c.toNat < 55296 ∨ (57344 ≤ c.toNat ∧ c.toNat < 1114112) := by
  have h := c.valid
  rcases h with h | h
  · exact Or.inl h
  · exact Or.inr h

theorem escBody_nil : escBody [] = [] := rfl

theorem escBody_cons (c : Char) (cs : List Char) :
    escBody (c :: cs) = escChar c ++ escBody cs := by
  simp [escBody]

/-- Every escaped character decodes back to itself: either it is kept
literal, or it becomes a backslash escape that `decodeEsc` inverts. -/
theorem escChar_decode (c : Char) :
    (escChar c = [c] ∧ c ≠ '"' ∧ c ≠ '\\') ∨
    (∃ T, escChar c = '\\' :: T ∧ ∀ X, decodeEsc (T ++ X) = some (c, X)) := by
  by_cases h1 : c = '"'
  · refine Or.inr ⟨['"'], ?_, ?_⟩
    · simp [escChar, h1]
    · intro X
      rw [List.cons_append, List.nil_append, h1]
      exact decodeEsc_esc2 '"' '"' X (by decide) (by decide)
  by_cases h2 : c = '\\'
  · refine Or.inr ⟨['\\'], ?_, ?_⟩
    · simp [escChar, h1, h2]
    · intro X
      rw [List.cons_append, List.nil_append, h2]
      exact decodeEsc_esc2 '\\' '\\' X (by decide) (by decide)
  by_cases h3 : c = Char.ofNat 8
  · refine Or.inr ⟨['b'], ?_, ?_⟩
    · simp [escChar, h1, h2, h3]
    · intro X
      rw [List.cons_append, List.nil_append, h3]
      exact decodeEsc_esc2 'b' (Char.ofNat 8) X (by decide) (by decide)
  by_cases h4 : c = Char.ofNat 9
  · refine Or.inr ⟨['t'], ?_, ?_⟩
    · simp [escChar, h1, h2, h3, h4]
    · intro X
      rw [List.cons_append, List.nil_append, h4]
      exact decodeEsc_esc2 't' (Char.ofNat 9) X (by decide) (by decide)
  by_cases h5 : c = Char.ofNat 10
  · refine Or.inr ⟨['n'], ?_, ?_⟩
    · simp [escChar, h1, h2, h3, h4, h5]
    · intro X
      rw [List.cons_append, List.nil_append, h5]
      exact decodeEsc_esc2 'n' (Char.ofNat 10) X (by decide) (by decide)
  by_cases h6 : c = Char.ofNat 12
  · refine Or.inr ⟨['f'], ?_, ?_⟩
    · simp [escChar, h1, h2, h3, h4, h5, h6]
    · intro X
      rw [List.cons_append, List.nil_append, h6]
      exact decodeEsc_esc2 'f' (Char.ofNat 12) X (by decide) (by decide)
  by_cases h7 : c = Char.ofNat 13
  · refine Or.inr ⟨['r'], ?_, ?_⟩
    · simp [escChar, h1, h2, h3, h4, h5, h6, h7]
    · intro X
      rw [List.cons_append, List.nil_append, h7]
      exact decodeEsc_esc2 'r' (Char.ofNat 13) X (by decide) (by decide)
  by_cases h8 : 32 ≤ c.toNat ∧ c.toNat ≤ 126
  · refine Or.inl ⟨?_, h1, h2⟩
    simp [escChar, h1, h2, h3, h4, h5, h6, h7, h8]
  by_cases h9 : c.toNat < 65536
  · refine Or.inr ⟨'u' :: hex4 c.toNat, ?_, ?_⟩
    · simp [escChar, h1, h2, h3, h4, h5, h6, h7, h8, h9]
    · intro X
      rw [List.cons_append]
      have hval : c.toNat < 55296 ∨ 57344 ≤ c.toNat := by
        rcases char_valid_nat c with h | h
        · exact Or.inl h
        · exact Or.inr h.1
      rw [decodeEsc_u4 c.toNat X h9 hval, Char.ofNat_toNat]
  · refine Or.inr ⟨('u' :: hex4 (55296 + (c.toNat - 65536) / 1024)) ++
      '\\' :: 'u' :: hex4 (56320 + (c.toNat - 65536) % 1024), ?_, ?_⟩
    · simp only [escChar, h1, h2, h3, h4, h5, h6, h7, h8, h9, if_false]
      simp [List.cons_append]
    · intro X
      have hm1 : 65536 ≤ c.toNat := by omega
      have hm2 : c.toNat < 1114112 := by
        rcases char_valid_nat c with h | h
        · omega
        · exact h.2
      have hshape : (('u' :: hex4 (55296 + (c.toNat - 65536) / 1024)) ++
          '\\' :: 'u' :: hex4 (56320 + (c.toNat - 65536) % 1024)) ++ X =
          'u' :: (hex4 (55296 + (c.toNat - 65536) / 1024) ++
            ('\\' :: 'u' :: (hex4 (56320 + (c.toNat - 65536) % 1024) ++ X))) := by
        simp [List.cons_append, List.append_assoc]
      rw [hshape, decodeEsc_surr c.toNat X hm1 hm2, Char.ofNat_toNat]

/-- One decoded character per escape group: `parseStrBody` undoes
`escChar`. -/
theorem parseStrBody_escChar (f : Nat) (c : Char) (X : List Char) :
    parseStrBody (f + 1) (escChar c ++ X) =
      match parseStrBody f X with
      | some p => some (c :: p.1, p.2)
      | none => none := by
  rcases escChar_decode c with ⟨h, hq, hb⟩ | ⟨T, hT, hdec⟩
  · rw [h, List.cons_append, List.nil_append]
    exact parseStrBody_lit f c X hq hb
  · rw [hT, List.cons_append]
    exact parseStrBody_bs f (T ++ X) X c (hdec X)

/-- The string-body round trip: an escaped body followed by the closing
quote parses back to the original characters. -/
theorem parseStrBody_escBody (cs : List Char) : ∀ f rest, cs.length < f →
    parseStrBody f (escBody cs ++ '"' :: rest) = some (cs, rest) := by
  induction cs with
  | nil =>
    intro f rest hf
    cases f with
    | zero => omega
    | succ f => rw [escBody_nil, List.nil_append]; exact parseStrBody_quote f rest
  | cons c cs ih =>
    intro f rest hf
    cases f with
    | zero => omega
    | succ f =>
      rw [escBody_cons, List.append_assoc, parseStrBody_escChar f c _]
      rw [ih f rest (by simp at hf; omega)]

theorem strMkData (s : String) : String.mk s.data = s := rfl

theorem escChar_length_pos (c : Char) : 1 ≤ (escChar c).length := by
  rcases escChar_decode c with ⟨h, _, _⟩ | ⟨T, h, _⟩ <;> simp [h]

theorem escBody_length (cs : List Char) : cs.length ≤ (escBody cs).length := by
  induction cs with
  | nil => simp [escBody_nil]
  | cons c cs ih =>
    rw [escBody_cons, List.length_append, List.length_cons]
    have := escChar_length_pos c
    omega

theorem parseVal_null (f : Nat) (s rest : List Char)
    (hs : skipWs s = Json.dumps Json.jnull ++ rest) :
    parseVal (f + 1) s = some (Json.jnull, rest) := by
  have hd : Json.dumps Json.jnull = ['n', 'u', 'l', 'l'] := by
    simp only [Json.dumps]
  rw [hd] at hs
  simp [parseVal, hs, (by decide : ('n' : Char) ≠ lbrace)]

theorem parseVal_true (f : Nat) (s rest : List Char)
    (hs : skipWs s = Json.dumps (Json.jbool true) ++ rest) :
    parseVal (f + 1) s = some (Json.jbool true, rest) := by
  have hd : Json.dumps (Json.jbool true) = ['t', 'r', 'u', 'e'] := by
    simp only [Json.dumps]
  rw [hd] at hs
  simp [parseVal, hs, (by decide : ('t' : Char) ≠ lbrace)]

theorem parseVal_false (f : Nat) (s rest : List Char)
    (hs : skipWs s = Json.dumps (Json.jbool false) ++ rest) :
    parseVal (f + 1) s = some (Json.jbool false, rest) := by
  have hd : Json.dumps (Json.jbool false) = ['f', 'a', 'l', 's', 'e'] := by
    simp only [Json.dumps]
  rw [hd] at hs
  simp [parseVal, hs, (by decide : ('f' : Char) ≠ lbrace)]

theorem parseVal_num (f : Nat) (n : Int) (s rest : List Char)
    (hs : skipWs s = Json.dumps (Json.jnum n) ++ rest)
    (hrest : noLeadDigit rest = true) :
    parseVal (f + 1) s = some (Json.jnum n, rest) := by
  have hd : Json.dumps (Json.jnum n) = intChars n := by simp [Json.dumps]
  rw [hd] at hs
  have hnum := parseNum_intChars n rest hrest
  by_cases hn : n < 0
  · have hi : intChars n = '-' :: natChars n.natAbs := by simp [intChars, hn]
    rw [hi, List.cons_append] at hs hnum
    simp [parseVal, hs, hnum, (by decide : ('-' : Char) ≠ lbrace)]
  · obtain ⟨c, t, hct, hcd⟩ := natChars_head n.toNat
    have hi : intChars n = c :: t := by
      rw [show intChars n = natChars n.toNat from by simp [intChars, hn], hct]
    rw [hi, List.cons_append] at hs hnum
    simp [parseVal, hs, hnum, isDigit_ne hcd (by decide : ('"' : Char).isDigit = false),
      isDigit_ne hcd (by decide : ('[' : Char).isDigit = false),
      isDigit_ne hcd (by decide : lbrace.isDigit = false),
      isDigit_ne hcd (by decide : ('t' : Char).isDigit = false),
      isDigit_ne hcd (by decide : ('f' : Char).isDigit = false),
      isDigit_ne hcd (by decide : ('n' : Char).isDigit = false)]

theorem parseVal_str (f : Nat) (s0 : String) (s rest : List Char)
    (hs : skipWs s = Json.dumps (Json.jstr s0) ++ rest) :
    parseVal (f + 1) s = some (Json.jstr s0, rest) := by
  have hd : Json.dumps (Json.jstr s0) ++ rest = '"' :: (escBody s0.data ++ '"' :: rest) := by
    simp [Json.dumps, dumpStr]
  rw [hd] at hs
  have hlen : s0.data.length < (escBody s0.data ++ '"' :: rest).length + 1 := by
    have := escBody_length s0.data
    simp only [List.length_append, List.length_cons]
    omega
  have hbody := parseStrBody_escBody s0.data
    ((escBody s0.data ++ '"' :: rest).length + 1) rest hlen
  simp only [List.length_append, List.length_cons] at hbody
  simp [parseVal, hs, hbody, strMkData]

theorem skipWs_cons_not (c : Char) (l : List Char) (h : isWs c = false) :
    skipWs (c :: l) = c :: l := by
  simp [skipWs, List.dropWhile, h]

theorem skipWs_space (l : List Char) : skipWs (' ' :: l) = skipWs l := by
  simp [skipWs, List.dropWhile, isWs]

theorem dumpArr_single (j : Json) : Json.dumpArr [j] = Json.dumps j := by
  simp [Json.dumpArr]

theorem dumpArr_cons2 (j j2 : Json) (js : List Json) :
    Json.dumpArr (j :: j2 :: js) = Json.dumps j ++ ',' :: ' ' :: Json.dumpArr (j2 :: js) := by
  simp [Json.dumpArr]

theorem dumpObj_single (k : String) (v : Json) :
    Json.dumpObj [(k, v)] = dumpStr k ++ ':' :: ' ' :: Json.dumps v := by
  simp [Json.dumpObj]

theorem dumpObj_cons2 (k : String) (v : Json) (kv2 : String × Json)
    (kvs : List (String × Json)) :
    Json.dumpObj ((k, v) :: kv2 :: kvs) =
      dumpStr k ++ ':' :: ' ' :: Json.dumps v ++ ',' :: ' ' :: Json.dumpObj (kv2 :: kvs) := by
  simp [Json.dumpObj]

theorem size_pos (j : Json) : 1 ≤ Json.size j := by
  cases j <;> simp [Json.size]

theorem sizeArr_cons (j : Json) (js : List Json) :
    Json.sizeArr (j :: js) = 1 + Json.size j + Json.sizeArr js := by
  simp [Json.sizeArr]

theorem sizeObj_cons (k : String) (v : Json) (kvs : List (String × Json)) :
    Json.sizeObj ((k, v) :: kvs) = 1 + Json.size v + Json.sizeObj kvs := by
  simp [Json.sizeObj]

theorem size_arr (es : List Json) : Json.size (Json.jarr es) = 1 + Json.sizeArr es := by
  simp [Json.size]

theorem size_obj (kvs : List (String × Json)) :
    Json.size (Json.jdict kvs) = 1 + Json.sizeObj kvs := by
  simp [Json.size]

/-- The first character of any serialised value: never whitespace, never a
closing bracket or brace. -/
theorem dumps_head (j : Json) :
    ∃ c0 tl, Json.dumps j = c0 :: tl ∧ isWs c0 = false ∧ c0 ≠ ']' ∧ c0 ≠ rbrace := by
  cases j with
  | jnull =>
    exact ⟨'n', ['u', 'l', 'l'], by simp only [Json.dumps],
      by decide, by decide, by decide⟩
  | jbool b =>
    cases b with
    | true =>
      exact ⟨'t', ['r', 'u', 'e'], by simp only [Json.dumps],
        by decide, by decide, by decide⟩
    | false =>
      exact ⟨'f', ['a', 'l', 's', 'e'], by simp only [Json.dumps],
        by decide, by decide, by decide⟩
  | jnum n =>
    by_cases hn : n < 0
    · exact ⟨'-', natChars n.natAbs, by simp [Json.dumps, intChars, hn],
        by decide, by decide, by decide⟩
    · obtain ⟨c, t, hct, hcd⟩ := natChars_head n.toNat
      refine ⟨c, t, ?_, isWs_of_isDigit hcd, isDigit_ne hcd (by decide),
        isDigit_ne hcd (by decide)⟩
      rw [show Json.dumps (Json.jnum n) = natChars n.toNat from by simp [Json.dumps, intChars, hn],
        hct]
  | jstr s =>
    refine ⟨'"', escBody s.data ++ ['"'], ?_, by decide, by decide, by decide⟩
    simp [Json.dumps, dumpStr]
  | jarr es =>
    refine ⟨'[', Json.dumpArr es ++ [']'], ?_, by decide, by decide, by decide⟩
    simp [Json.dumps]
  | jdict kvs =>
    refine ⟨lbrace, Json.dumpObj kvs ++ [rbrace], ?_, by decide, by decide, by decide⟩
    simp [Json.dumps]

theorem skipWs_dumps (j : Json) (y : List Char) :
    skipWs (Json.dumps j ++ y) = Json.dumps j ++ y := by
  obtain ⟨c, t, hct, hws, _, _⟩ := dumps_head j
  rw [hct, List.cons_append]
  exact skipWs_cons_not c (t ++ y) hws

/-- First character of a non-empty serialised object body is the opening
quote of its first key. -/
theorem dumpObj_head (k : String) (v : Json) (kvs : List (String × Json)) :
    ∃ T, Json.dumpObj ((k, v) :: kvs) = '"' :: T := by
  cases kvs with
  | nil =>
    exact ⟨escBody k.data ++ ['"'] ++ ':' :: ' ' :: Json.dumps v,
      by simp [dumpObj_single, dumpStr, List.cons_append, List.append_assoc]⟩
  | cons kv2 kvs =>
    obtain ⟨k2, v2⟩ := kv2
    exact ⟨escBody k.data ++ ['"'] ++ ':' :: ' ' :: Json.dumps v ++
        ',' :: ' ' :: Json.dumpObj ((k2, v2) :: kvs),
      by simp [dumpObj_cons2, dumpStr, List.cons_append, List.append_assoc]⟩

theorem skipWs_dumpObj (k : String) (v : Json) (kvs : List (String × Json)) (y : List Char) :
    skipWs (Json.dumpObj ((k, v) :: kvs) ++ y) = Json.dumpObj ((k, v) :: kvs) ++ y := by
  obtain ⟨T, hT⟩ := dumpObj_head k v kvs
  rw [hT, List.cons_append]
  exact skipWs_cons_not _ _ (by decide)

theorem skipWs_dumpArr (e : Json) (es : List Json) (y : List Char) :
    skipWs (Json.dumpArr (e :: es) ++ y) = Json.dumpArr (e :: es) ++ y := by
  cases es with
  | nil =>
    rw [dumpArr_single]
    exact skipWs_dumps e y
  | cons e2 es =>
    rw [dumpArr_cons2, List.append_assoc]
    exact skipWs_dumps e _

theorem noLeadDigit_rbrack (r : List Char) : noLeadDigit (']' :: r) = true := by
  simp only [noLeadDigit]
  decide

theorem noLeadDigit_comma (r : List Char) : noLeadDigit (',' :: r) = true := by
  simp only [noLeadDigit]
  decide

theorem noLeadDigit_rbrace (r : List Char) : noLeadDigit (rbrace :: r) = true := by
  simp only [noLeadDigit]
  decide

theorem dumpArr_shape (e : Json) (es : List Json) :
    ∃ c0 tl, Json.dumpArr (e :: es) = c0 :: tl ∧ isWs c0 = false ∧ c0 ≠ ']' := by
  obtain ⟨c, t, hct, h1, h2, _⟩ := dumps_head e
  cases es with
  | nil => exact ⟨c, t, by rw [dumpArr_single, hct], h1, h2⟩
  | cons e2 es =>
    exact ⟨c, t ++ ',' :: ' ' :: Json.dumpArr (e2 :: es),
      by rw [dumpArr_cons2, hct, List.cons_append], h1, h2⟩

/-- Round trip of the whole grammar, by induction on the parser fuel: a
serialised value (or array/object body) surrounded by the appropriate
delimiters parses back to itself. -/
theorem parse_dumps (fuel : Nat) :
    (∀ j s rest, Json.size j ≤ fuel → skipWs s = Json.dumps j ++ rest →
        noLeadDigit rest = true → parseVal fuel s = some (j, rest)) ∧
    (∀ e es s rest, Json.sizeArr (e :: es) ≤ fuel →
        skipWs s = Json.dumpArr (e :: es) ++ ']' :: rest →
        parseItems fuel s = some (e :: es, rest)) ∧
    (∀ k v kvs s rest, Json.sizeObj ((k, v) :: kvs) ≤ fuel →
        skipWs s = Json.dumpObj ((k, v) :: kvs) ++ rbrace :: rest →
        parseFields fuel s = some ((k, v) :: kvs, rest)) := by
  induction fuel with
  | zero =>
    refine ⟨?_, ?_, ?_⟩
    · intro j s rest hsz _ _
      have := size_pos j
      omega
    · intro e es s rest hsz _
      rw [sizeArr_cons] at hsz
      omega
    · intro k v kvs s rest hsz _
      rw [sizeObj_cons] at hsz
      omega
  | succ f ih =>
    obtain ⟨ihv, ihi, ihf⟩ := ih
    refine ⟨?_, ?_, ?_⟩
    · -- parseVal
      intro j s rest hsz hs hrest
      cases j with
      | jnull => exact parseVal_null f s rest hs
      | jbool b =>
        cases b with
        | true => exact parseVal_true f s rest hs
        | false => exact parseVal_false f s rest hs
      | jnum n => exact parseVal_num f n s rest hs hrest
      | jstr s0 => exact parseVal_str f s0 s rest hs
      | jarr es =>
        cases es with
        | nil =>
          have hd : Json.dumps (Json.jarr []) ++ rest = '[' :: ']' :: rest := by
            simp [Json.dumps, Json.dumpArr]
          rw [hd] at hs
          simp [parseVal, hs, (by decide : ('[' : Char) ≠ lbrace),
            skipWs_cons_not ']' rest (by decide)]
        | cons x xs =>
          have hd : Json.dumps (Json.jarr (x :: xs)) ++ rest =
              '[' :: (Json.dumpArr (x :: xs) ++ ']' :: rest) := by
            simp [Json.dumps]
          rw [hd] at hs
          obtain ⟨c0, T, hT, hws0, hnr0⟩ := dumpArr_shape x xs
          have hsz2 : Json.sizeArr (x :: xs) ≤ f := by
            rw [size_arr] at hsz
            omega
          have hitems := ihi x xs (Json.dumpArr (x :: xs) ++ ']' :: rest) rest hsz2
            (skipWs_dumpArr x xs _)
          rw [hT, List.cons_append] at hs hitems
          simp [parseVal, hs, (by decide : ('[' : Char) ≠ lbrace),
            skipWs_cons_not c0 _ hws0, hnr0, hitems]
      | jdict kvs =>
        cases kvs with
        | nil =>
          have hd : Json.dumps (Json.jdict []) ++ rest = lbrace :: rbrace :: rest := by
            simp [Json.dumps, Json.dumpObj]
          rw [hd] at hs
          simp [parseVal, hs, (by decide : lbrace ≠ '"'), (by decide : lbrace ≠ '['),
            (by decide : lbrace ≠ 't'), (by decide : lbrace ≠ 'f'),
            (by decide : lbrace ≠ 'n'),
            skipWs_cons_not rbrace rest (by decide)]
        | cons kv kvs =>
          obtain ⟨k, v⟩ := kv
          have hd : Json.dumps (Json.jdict ((k, v) :: kvs)) ++ rest =
              lbrace :: (Json.dumpObj ((k, v) :: kvs) ++ rbrace :: rest) := by
            simp [Json.dumps]
          rw [hd] at hs
          obtain ⟨T, hT⟩ := dumpObj_head k v kvs
          have hsz2 : Json.sizeObj ((k, v) :: kvs) ≤ f := by
            rw [size_obj] at hsz
            omega
          have hfields := ihf k v kvs (Json.dumpObj ((k, v) :: kvs) ++ rbrace :: rest) rest
            hsz2 (skipWs_dumpObj k v kvs _)
          rw [hT, List.cons_append] at hs hfields
          simp [parseVal, hs, (by decide : lbrace ≠ '"'), (by decide : lbrace ≠ '['),
            (by decide : lbrace ≠ 't'), (by decide : lbrace ≠ 'f'),
            (by decide : lbrace ≠ 'n'),
            skipWs_cons_not '"' _ (by decide), (by decide : ('"' : Char) ≠ rbrace),
            hfields]
    · -- parseItems
      intro e es s rest hsz hs
      rw [sizeArr_cons] at hsz
      have hsze : Json.size e ≤ f := by
        have := size_pos e
        omega
      cases es with
      | nil =>
        rw [dumpArr_single] at hs
        have hv := ihv e s (']' :: rest) hsze hs (noLeadDigit_rbrack rest)
        simp [parseItems, hv, skipWs_cons_not ']' rest (by decide),
          (by decide : (']' : Char) ≠ ',')]
      | cons e2 es2 =>
        simp only [dumpArr_cons2, List.append_assoc, List.cons_append] at hs
        have hv := ihv e s (',' :: ' ' :: (Json.dumpArr (e2 :: es2) ++ ']' :: rest)) hsze hs
          (noLeadDigit_comma _)
        have hsz2 : Json.sizeArr (e2 :: es2) ≤ f := by omega
        have hnext := ihi e2 es2 (' ' :: (Json.dumpArr (e2 :: es2) ++ ']' :: rest)) rest hsz2
          (by rw [skipWs_space]; exact skipWs_dumpArr e2 es2 _)
        simp [parseItems, hv, skipWs_cons_not ',' _ (by decide), hnext]
    · -- parseFields
      intro k v kvs s rest hsz hs
      rw [sizeObj_cons] at hsz
      have hszv : Json.size v ≤ f := by
        have := size_pos v
        omega
      cases kvs with
      | nil =>
        simp only [dumpObj_single, dumpStr, List.append_assoc, List.cons_append,
          List.nil_append] at hs
        have hlen : k.data.length <
            (escBody k.data ++ '"' :: (':' :: ' ' :: (Json.dumps v ++ rbrace :: rest))).length
              + 1 := by
          have := escBody_length k.data
          simp only [List.length_append, List.length_cons]
          omega
        have hbody := parseStrBody_escBody k.data
          ((escBody k.data ++ '"' :: (':' :: ' ' :: (Json.dumps v ++ rbrace :: rest))).length
            + 1)
          (':' :: ' ' :: (Json.dumps v ++ rbrace :: rest)) hlen
        simp only [List.length_append, List.length_cons] at hbody
        have hval := ihv v (' ' :: (Json.dumps v ++ rbrace :: rest)) (rbrace :: rest) hszv
          (by rw [skipWs_space]; exact skipWs_dumps v _) (noLeadDigit_rbrace rest)
        simp [parseFields, hs, hbody, skipWs_cons_not ':' _ (by decide), hval,
          skipWs_cons_not rbrace rest (by decide), (by decide : rbrace ≠ ','),
          strMkData]
      | cons kv2 kvs2 =>
        obtain ⟨k2, v2⟩ := kv2
        simp only [dumpObj_cons2, dumpStr, List.append_assoc, List.cons_append,
          List.nil_append] at hs
        have hlen : k.data.length <
            (escBody k.data ++ '"' :: (':' :: ' ' :: (Json.dumps v ++ ',' :: ' ' ::
              (Json.dumpObj ((k2, v2) :: kvs2) ++ rbrace :: rest)))).length + 1 := by
          have := escBody_length k.data
          simp only [List.length_append, List.length_cons]
          omega
        have hbody := parseStrBody_escBody k.data
          ((escBody k.data ++ '"' :: (':' :: ' ' :: (Json.dumps v ++ ',' :: ' ' ::
            (Json.dumpObj ((k2, v2) :: kvs2) ++ rbrace :: rest)))).length + 1)
          (':' :: ' ' :: (Json.dumps v ++ ',' :: ' ' ::
            (Json.dumpObj ((k2, v2) :: kvs2) ++ rbrace :: rest))) hlen
        simp only [List.length_append, List.length_cons] at hbody
        have hval := ihv v (' ' :: (Json.dumps v ++ ',' :: ' ' ::
            (Json.dumpObj ((k2, v2) :: kvs2) ++ rbrace :: rest)))
          (',' :: ' ' :: (Json.dumpObj ((k2, v2) :: kvs2) ++ rbrace :: rest)) hszv
          (by rw [skipWs_space]; exact skipWs_dumps v _) (noLeadDigit_comma _)
        have hsz2 : Json.sizeObj ((k2, v2) :: kvs2) ≤ f := by omega
        have hnext := ihf k2 v2 kvs2
          (' ' :: (Json.dumpObj ((k2, v2) :: kvs2) ++ rbrace :: rest)) rest hsz2
          (by rw [skipWs_space]; exact skipWs_dumpObj k2 v2 kvs2 _)
        simp [parseFields, hs, hbody, skipWs_cons_not ':' _ (by decide), hval,
          skipWs_cons_not ',' _ (by decide), hnext, strMkData]

theorem size_le_dumps (B : Nat) :
    (∀ j, Json.size j ≤ B → Json.size j ≤ (Json.dumps j).length) ∧
    (∀ es, Json.sizeArr es ≤ B → Json.sizeArr es ≤ (Json.dumpArr es).length + 1) ∧
    (∀ kvs, Json.sizeObj kvs ≤ B → Json.sizeObj kvs ≤ (Json.dumpObj kvs).length + 1) := by
  induction B with
  | zero =>
    refine ⟨?_, ?_, ?_⟩
    · intro j hsz
      have := size_pos j
      omega
    · intro es hsz
      cases es with
      | nil => simp [Json.sizeArr]
      | cons e es =>
        rw [sizeArr_cons] at hsz
        have := size_pos e
        omega
    · intro kvs hsz
      cases kvs with
      | nil => simp [Json.sizeObj]
      | cons kv kvs =>
        obtain ⟨k, v⟩ := kv
        rw [sizeObj_cons] at hsz
        have := size_pos v
        omega
  | succ B ih =>
    obtain ⟨ihj, iha, iho⟩ := ih
    refine ⟨?_, ?_, ?_⟩
    · intro j hsz
      cases j with
      | jnull =>
        simp only [Json.size, Json.dumps]
        decide
      | jbool b =>
        cases b <;> simp only [Json.size, Json.dumps] <;> decide
      | jnum n =>
        by_cases hn : n < 0
        · simp [Json.size, Json.dumps, intChars, hn]
        · obtain ⟨c, t, hct, _⟩ := natChars_head n.toNat
          rw [show Json.dumps (Json.jnum n) = natChars n.toNat from
            by simp [Json.dumps, intChars, hn], hct]
          simp [Json.size]
      | jstr s => simp [Json.size, Json.dumps, dumpStr]
      | jarr es =>
        rw [size_arr] at hsz ⊢
        have h := iha es (by omega)
        have hd : (Json.dumps (Json.jarr es)).length = (Json.dumpArr es).length + 2 := by
          simp [Json.dumps]
        omega
      | jdict kvs =>
        rw [size_obj] at hsz ⊢
        have h := iho kvs (by omega)
        have hd : (Json.dumps (Json.jdict kvs)).length = (Json.dumpObj kvs).length + 2 := by
          simp [Json.dumps]
        omega
    · intro es hsz
      cases es with
      | nil => simp [Json.sizeArr]
      | cons e es2 =>
        rw [sizeArr_cons] at hsz ⊢
        have hpos := size_pos e
        have h1 := ihj e (by omega)
        cases es2 with
        | nil =>
          rw [dumpArr_single]
          simp [Json.sizeArr]
          omega
        | cons e2 es3 =>
          have h2 := iha (e2 :: es3) (by rw [sizeArr_cons] at hsz ⊢; omega)
          rw [dumpArr_cons2]
          simp only [List.length_append, List.length_cons]
          omega
    · intro kvs hsz
      cases kvs with
      | nil => simp [Json.sizeObj]
      | cons kv kvs2 =>
        obtain ⟨k, v⟩ := kv
        rw [sizeObj_cons] at hsz ⊢
        have hpos := size_pos v
        have h1 := ihj v (by omega)
        cases kvs2 with
        | nil =>
          rw [dumpObj_single]
          simp only [List.length_append, List.length_cons, Json.sizeObj]
          omega
        | cons kv2 kvs3 =>
          obtain ⟨k2, v2⟩ := kv2
          have h2 := iho ((k2, v2) :: kvs3) (by rw [sizeObj_cons] at hsz ⊢; omega)
          rw [dumpObj_cons2]
          simp only [List.length_append, List.length_cons]
          omega

/-- The metadata round trip at the heart of the storage layer:
`json.loads(json.dumps(m))` recovers `m` exactly. -/
theorem Json.loads_dumps (j : Json) : Json.loads (Json.dumps j) = some j := by
  have hsz : Json.size j ≤ (Json.dumps j).length :=
    (size_le_dumps (Json.size j)).1 j le_rfl
  have hws : skipWs (Json.dumps j) = Json.dumps j ++ [] := by
    have h := skipWs_dumps j []
    rw [List.append_nil] at h
    rw [List.append_nil]
    exact h
  have h := (parse_dumps ((Json.dumps j).length + 1)).1 j (Json.dumps j) []
    (by omega) hws (by simp [noLeadDigit])
  simp [Json.loads, h, skipWs]

theorem dumps_ne_nil (j : Json) : Json.dumps j ≠ [] := by
  obtain ⟨c, t, hct, _⟩ := dumps_head j
  simp [hct]

/-- `ALLOWED_STATUSES` from services/orders/models.py. -/
def ALLOWED_STATUSES : List String := ["requested", "in_progress", "delivered", "cancelled"]

/-- The `OrderRecord` dataclass (models.py).  `metadata` is the decoded
Python dictionary, modelled as a `Json` value; `timestamp` is the UTC
creation time. -/
structure OrderRecord where
  order_id : Nat
  timestamp : Int
  user_id : String
  status : String
  metadata : Json

/-- The `OrderCreateRequest` dataclass (models.py). -/
structure OrderCreateRequest where
  user_id : String
  metadata : Json

/-- One row of the SQLite `orders` table; the metadata column holds the
JSON-serialised text, the timestamp column the ISO-8601 rendering of the
creation time (order-isomorphic to the integer model). -/
structure Row where
  id : Nat
  timestamp : Int
  user_id : String
  status : String
  metadata : List Char
deriving DecidableEq

/-- The SQLite database state: the `orders` table in insertion order plus
the AUTOINCREMENT counter, which SQLite keeps strictly greater than every
id ever issued. -/
structure DB where
  rows : List Row
  next_id : Nat
deriving DecidableEq

/-- The AUTOINCREMENT invariant of reachable databases: every issued id is
below the counter. -/
def DB.WF (db : DB) : Prop := ∀ r ∈ db.rows, r.id < db.next_id

instance (db : DB) : Decidable db.WF := by
  unfold DB.WF
  infer_instance

/-- Python exceptions that can escape the order subsystem: `ValueError`
from the status check, `json.JSONDecodeError` from `json.loads`. -/
inductive PyErr where
  | valueError (msg : String)
  | jsonDecodeError
deriving DecidableEq

/-- `OrderStorage._row_to_record`: decode one SQLite row.  An empty metadata
blob decodes to the empty dictionary (the `if metadata_raw` guard); a
non-empty blob goes through `json.loads`, which raises on unparsable
input. -/
def row_to_record (r : Row) : Except PyErr OrderRecord :=
  if r.metadata = [] then
    .ok ⟨r.id, r.timestamp, r.user_id, r.status, Json.jdict []⟩
  else
    match Json.loads r.metadata with
    | some m => .ok ⟨r.id, r.timestamp, r.user_id, r.status, m⟩
    | none => .error .jsonDecodeError

namespace OrderStorage

/-- `_fetch_orders`' list comprehension: decode each returned row in order,
propagating the first decode error (a raised exception). -/
def decodeRows : List Row → Except PyErr (List OrderRecord)
  | [] => .ok []
  | r :: rs =>
    match row_to_record r with
    | .error e => .error e
    | .ok rec =>
      match decodeRows rs with
      | .error e => .error e
      | .ok recs => .ok (rec :: recs)

/-- `OrderStorage.get_order`: `SELECT * FROM orders WHERE id = ?`, decode
the result set, and return `rows[0] if rows else None`. -/
def get_order (db : DB) (order_id : Nat) : Except PyErr (Option OrderRecord) :=
  match decodeRows (db.rows.filter (fun r => r.id == order_id)) with
  | .error e => .error e
  | .ok recs => .ok recs.head?

/-- `OrderStorage.create_order`: insert a row with the current UTC time
(`now`), status forced to `"requested"`, and `json.dumps` of the request
metadata (`request.metadata or {}` equals `request.metadata` as a value,
since the only falsy dictionary is the empty one), and return the in-memory
record without re-reading it. -/
def create_order (db : DB) (now : Int) (request : OrderCreateRequest) :
    OrderRecord × DB :=
  let order_id := db.next_id
  let row : Row := ⟨order_id, now, request.user_id, "requested",
    Json.dumps request.metadata⟩
  (⟨order_id, now, request.user_id, "requested", request.metadata⟩,
   ⟨db.rows ++ [row], db.next_id + 1⟩)

/-- `OrderStorage.update_order_status`: validate the status first (raising
`ValueError` before any read or write), fetch the existing record (which can
itself raise on a corrupt row), return `None` with no write when the id is
unknown, else overwrite status and metadata (`UPDATE orders SET status = ?,
metadata = ? WHERE id = ?`) and return the merged record. -/
def update_order_status (db : DB) (order_id : Nat) (status : String)
    (metadata : Option Json) : Except PyErr (Option OrderRecord) × DB :=
  if status ∈ ALLOWED_STATUSES then
    match get_order db order_id with
    | .error e => (.error e, db)
    | .ok none => (.ok none, db)
    | .ok (some existing) =>
      let new_metadata := match metadata with
        | some m => m
        | none => existing.metadata
      let db2 : DB := ⟨db.rows.map (fun r =>
          if r.id = order_id then
            ⟨r.id, r.timestamp, r.user_id, status, Json.dumps new_metadata⟩
          else r), db.next_id⟩
      (.ok (some ⟨existing.order_id, existing.timestamp, existing.user_id, status,
        new_metadata⟩), db2)
  else (.error (.valueError ("Invalid status: " ++ status)), db)

/-- `ORDER BY timestamp DESC`: sorted by timestamp, newest first (SQLite
leaves the relative order of equal timestamps unspecified; a stable
insertion sort is one refinement of that). -/
def rowGE (a b : Row) : Prop := b.timestamp ≤ a.timestamp

instance : DecidableRel rowGE := fun a b =>
  inferInstanceAs (Decidable (b.timestamp ≤ a.timestamp))

instance : IsTotal Row rowGE :=
  ⟨fun a b => (le_total b.timestamp a.timestamp).imp id id⟩

instance : IsTrans Row rowGE :=
  ⟨fun _ _ _ hab hbc => le_trans hbc hab⟩

/-- `OrderStorage.list_orders`: `SELECT * FROM orders ORDER BY timestamp
DESC LIMIT ?`, decoded.  SQLite treats a negative `LIMIT` as "no limit". -/
def list_orders (db : DB) (limit : Int) : Except PyErr (List OrderRecord) :=
  let sorted := db.rows.insertionSort rowGE
  let limited := if limit < 0 then sorted else sorted.take limit.toNat
  decodeRows limited

/-- `OrderStorage.delivered_count`: `SELECT COUNT(*) FROM orders WHERE
status = 'delivered'` (no metadata decoding takes place). -/
def delivered_count (db : DB) : Nat :=
  db.rows.countP (fun r => r.status == "delivered")

/-- `OrderStorage.delivered_count_since`: delivered orders with
`timestamp >= since` (inclusive); again no metadata decoding. -/
def delivered_count_since (db : DB) (since : Int) : Nat :=
  db.rows.countP (fun r => r.status == "delivered" && decide (since ≤ r.timestamp))

/-- `rolling_week_start` (storage.py): `(now or datetime.now(utc)) -
timedelta(days=7)`; `clock` is the current UTC time used when `now` is
omitted; 7 days = 604800 seconds. -/
def rolling_week_start (now : Option Int) (clock : Int) : Int :=
  now.getD clock - 7 * 86400

end OrderStorage

/-- The dictionary returned by `OrderService.get_stats`. -/
structure Stats where
  weekly_delivered : Nat
  all_time_delivered : Nat
deriving DecidableEq

namespace OrderService

/-- `OrderService.create_order`: wrap the arguments in an
`OrderCreateRequest` (defaulting absent metadata to the empty map via
`metadata or {}`) and delegate to storage. -/
def create_order (db : DB) (now : Int) (user_id : String) (metadata : Option Json) :
    OrderRecord × DB :=
  let request : OrderCreateRequest := ⟨user_id, metadata.getD (Json.jdict [])⟩
  OrderStorage.create_order db now request

/-- `OrderService.update_status`: re-validate the status (raising the same
`ValueError` before contacting storage) and delegate. -/
def update_status (db : DB) (order_id : Nat) (status : String)
    (metadata : Option Json) : Except PyErr (Option OrderRecord) × DB :=
  if status ∈ ALLOWED_STATUSES then
    OrderStorage.update_order_status db order_id status metadata
  else (.error (.valueError ("Invalid status: " ++ status)), db)

/-- `OrderService.get_history`: thin pass-through to `list_orders`. -/
def get_history (db : DB) (limit : Int) : Except PyErr (List OrderRecord) :=
  OrderStorage.list_orders db limit

/-- `OrderService.get_stats`: rolling 7-day window and all-time delivered
counts. -/
def get_stats (db : DB) (now : Option Int) (clock : Int) : Stats :=
  let week_start := OrderStorage.rolling_week_start now clock
  ⟨OrderStorage.delivered_count_since db week_start,
   OrderStorage.delivered_count db⟩

end OrderService

/-- C2: for every order store, id, metadata, and status outside
{requested, in_progress, delivered, cancelled}, both
`OrderStorage.update_order_status` and `OrderService.update_status` raise
`ValueError("Invalid status: ...")` and leave the stored state unchanged —
the check happens before any read or write, so the result holds for every
database, even one whose rows could not be decoded. -/
theorem update_status_invalid (db : DB) (order_id : Nat) (status : String)
    (metadata : Option Json) (h : status ∉ ALLOWED_STATUSES) :
    OrderStorage.update_order_status db order_id status metadata =
      (.error (.valueError ("Invalid status: " ++ status)), db) ∧
    OrderService.update_status db order_id status metadata =
      (.error (.valueError ("Invalid status: " ++ status)), db) := by
  constructor
  · simp [OrderStorage.update_order_status, h]
  · simp [OrderService.update_status, h]

theorem update_status_invalid_witness :
    "done" ∉ ALLOWED_STATUSES ∧
    OrderStorage.update_order_status ⟨[], 1⟩ 7 "done" none =
      (.error (.valueError ("Invalid status: " ++ "done")), ⟨[], 1⟩) ∧
    OrderService.update_status ⟨[], 1⟩ 7 "done" none =
      (.error (.valueError ("Invalid status: " ++ "done")), ⟨[], 1⟩) := by
  have h : "done" ∉ ALLOWED_STATUSES := by decide
  have := update_status_invalid ⟨[], 1⟩ 7 "done" none h
  exact ⟨h, this.1, this.2⟩

/-- C3: updating a non-existent id with an allowed status returns `None`
("not found") and performs no write: the resulting database is exactly the
input database. -/
theorem update_status_missing (db : DB) (order_id : Nat) (status : String)
    (metadata : Option Json) (hst : status ∈ ALLOWED_STATUSES)
    (hmiss : ∀ r ∈ db.rows, r.id ≠ order_id) :
    OrderStorage.update_order_status db order_id status metadata = (.ok none, db) := by
  have hfil : db.rows.filter (fun r => r.id == order_id) = [] := by
    rw [List.filter_eq_nil_iff]
    intro r hr
    simp [hmiss r hr]
  simp [OrderStorage.update_order_status, OrderStorage.get_order, hst, hfil,
    OrderStorage.decodeRows]

theorem update_status_missing_witness :
    "delivered" ∈ ALLOWED_STATUSES ∧
    (∀ r ∈ ([⟨1, 100, "alice", "requested", []⟩] : List Row), r.id ≠ 5) ∧
    OrderStorage.update_order_status ⟨[⟨1, 100, "alice", "requested", []⟩], 2⟩ 5
      "delivered" none = (.ok none, ⟨[⟨1, 100, "alice", "requested", []⟩], 2⟩) := by
  refine ⟨by decide, by decide, ?_⟩
  exact update_status_missing ⟨[⟨1, 100, "alice", "requested", []⟩], 2⟩ 5 "delivered"
    none (by decide) (by decide)

/-- C6: the rolling-window delivered count never exceeds the all-time
delivered count, for every store state and every threshold. -/
theorem delivered_count_since_le (db : DB) (t : Int) :
    OrderStorage.delivered_count_since db t ≤ OrderStorage.delivered_count db := by
  unfold OrderStorage.delivered_count_since OrderStorage.delivered_count
  apply List.countP_mono_left
  intro r _ h
  simp only [Bool.and_eq_true] at h
  exact h.1

/-- C9: `get_stats` returns exactly the delivered count over the inclusive
window `timestamp ≥ now - 7 days` as `weekly_delivered` (7 days is the fixed
constant 604800 seconds) and the all-time delivered count as
`all_time_delivered`; when `now` is omitted the current UTC time (`clock`)
is used. -/
theorem get_stats_spec (db : DB) (t clock : Int) :
    (OrderService.get_stats db (some t) clock).weekly_delivered =
      db.rows.countP
        (fun r => r.status == "delivered" && decide (t - 7 * 86400 ≤ r.timestamp)) ∧
    (OrderService.get_stats db (some t) clock).all_time_delivered =
      db.rows.countP (fun r => r.status == "delivered") ∧
    OrderService.get_stats db none clock = OrderService.get_stats db (some clock) clock :=
  ⟨rfl, rfl, rfl⟩

/-- C10: the service-level `update_status` is extensionally equal to the
storage-level `update_order_status` on every input: the duplicated validity
check raises the same `ValueError`, and valid statuses are delegated
unchanged. -/
theorem update_status_refines (db : DB) (order_id : Nat) (status : String)
    (metadata : Option Json) :
    OrderService.update_status db order_id status metadata =
      OrderStorage.update_order_status db order_id status metadata := by
  by_cases h : status ∈ ALLOWED_STATUSES
  · simp [OrderService.update_status, h]
  · simp [OrderService.update_status, OrderStorage.update_order_status, h]

/-- C1: every creation request yields an order with status exactly
`"requested"`, metadata equal to the supplied map (empty when omitted), and
an id different from every previously issued id; the AUTOINCREMENT
invariant is preserved, so the hypothesis holds at every reachable store. -/
theorem create_order_spec (db : DB) (now : Int) (user_id : String)
    (metadata : Option Json) (hwf : db.WF) :
    (OrderService.create_order db now user_id metadata).1.status = "requested" ∧
    (OrderService.create_order db now user_id metadata).1.metadata =
      metadata.getD (Json.jdict []) ∧
    (∀ r ∈ db.rows, r.id ≠ (OrderService.create_order db now user_id metadata).1.order_id) ∧
    (OrderService.create_order db now user_id metadata).2.WF := by
  refine ⟨rfl, rfl, ?_, ?_⟩
  · intro r hr
    have := hwf r hr
    simp only [OrderService.create_order, OrderStorage.create_order]
    omega
  · intro r hr
    simp only [OrderService.create_order, OrderStorage.create_order,
      List.mem_append, List.mem_singleton] at hr
    rcases hr with hr | hr
    · have := hwf r hr
      simp only [OrderService.create_order, OrderStorage.create_order]
      omega
    · subst hr
      simp only [OrderService.create_order, OrderStorage.create_order]
      omega

theorem create_order_spec_witness :
    DB.WF ⟨[⟨1, 100, "alice", "requested", []⟩], 2⟩ ∧
    ((OrderService.create_order ⟨[⟨1, 100, "alice", "requested", []⟩], 2⟩ 200 "bob"
        none).1.status = "requested" ∧
      (OrderService.create_order ⟨[⟨1, 100, "alice", "requested", []⟩], 2⟩ 200 "bob"
        none).1.metadata = (none : Option Json).getD (Json.jdict []) ∧
      (∀ r ∈ (⟨[⟨1, 100, "alice", "requested", []⟩], 2⟩ : DB).rows,
        r.id ≠ (OrderService.create_order ⟨[⟨1, 100, "alice", "requested", []⟩], 2⟩ 200
          "bob" none).1.order_id) ∧
      (OrderService.create_order ⟨[⟨1, 100, "alice", "requested", []⟩], 2⟩ 200 "bob"
        none).2.WF) :=
  ⟨by decide, create_order_spec ⟨[⟨1, 100, "alice", "requested", []⟩], 2⟩ 200 "bob" none
    (by decide)⟩

/-- C7: creating an order with any JSON metadata and reading it back from
storage returns metadata structurally equal to what was written — the
`json.dumps`/`json.loads` round trip through the metadata column is the
identity. -/
theorem metadata_roundtrip (db : DB) (now : Int) (user_id : String) (m : Json)
    (hwf : db.WF) :
    OrderStorage.get_order (OrderService.create_order db now user_id (some m)).2
      (OrderService.create_order db now user_id (some m)).1.order_id =
      .ok (some ⟨db.next_id, now, user_id, "requested", m⟩) := by
  have hfil : db.rows.filter (fun r => r.id == db.next_id) = [] := by
    rw [List.filter_eq_nil_iff]
    intro r hr
    have := hwf r hr
    simp
    omega
  have hrtr : row_to_record ⟨db.next_id, now, user_id, "requested", Json.dumps m⟩ =
      .ok ⟨db.next_id, now, user_id, "requested", m⟩ := by
    simp [row_to_record, dumps_ne_nil m, Json.loads_dumps m]
  simp [OrderService.create_order, OrderStorage.create_order, OrderStorage.get_order,
    List.filter_append, hfil, OrderStorage.decodeRows, hrtr]

theorem metadata_roundtrip_witness :
    DB.WF ⟨[], 1⟩ ∧
    OrderStorage.get_order
      (OrderService.create_order ⟨[], 1⟩ 100 "alice"
        (some (Json.jdict [("rfid", Json.jstr "tag-1"),
          ("extras", Json.jarr [Json.jnum 3, Json.jnull, Json.jbool true,
            Json.jdict [("deep", Json.jstr "q\"\\")]])]))).2
      (OrderService.create_order ⟨[], 1⟩ 100 "alice"
        (some (Json.jdict [("rfid", Json.jstr "tag-1"),
          ("extras", Json.jarr [Json.jnum 3, Json.jnull, Json.jbool true,
            Json.jdict [("deep", Json.jstr "q\"\\")]])]))).1.order_id =
      .ok (some ⟨1, 100, "alice", "requested",
        Json.jdict [("rfid", Json.jstr "tag-1"),
          ("extras", Json.jarr [Json.jnum 3, Json.jnull, Json.jbool true,
            Json.jdict [("deep", Json.jstr "q\"\\")]])]⟩) :=
  ⟨by decide, metadata_roundtrip ⟨[], 1⟩ 100 "alice"
    (Json.jdict [("rfid", Json.jstr "tag-1"),
      ("extras", Json.jarr [Json.jnum 3, Json.jnull, Json.jbool true,
        Json.jdict [("deep", Json.jstr "q\"\\")]])]) (by decide)⟩

theorem row_to_record_fields (r : Row) (rec : OrderRecord)
    (h : row_to_record r = .ok rec) :
    rec.order_id = r.id ∧ rec.timestamp = r.timestamp ∧
    rec.user_id = r.user_id ∧ rec.status = r.status := by
  unfold row_to_record at h
  by_cases hm : r.metadata = []
  · simp [hm] at h
    subst h
    exact ⟨rfl, rfl, rfl, rfl⟩
  · simp [hm] at h
    cases hl : Json.loads r.metadata with
    | none => rw [hl] at h; cases h
    | some m =>
      rw [hl] at h
      simp at h
      subst h
      exact ⟨rfl, rfl, rfl, rfl⟩

theorem decodeRows_map_fields (rows : List Row) (recs : List OrderRecord)
    (h : OrderStorage.decodeRows rows = .ok recs) :
    recs.map OrderRecord.timestamp = rows.map Row.timestamp ∧
    recs.length = rows.length := by
  induction rows generalizing recs with
  | nil =>
    simp [OrderStorage.decodeRows] at h
    subst h
    exact ⟨rfl, rfl⟩
  | cons r rs ih =>
    unfold OrderStorage.decodeRows at h
    cases h1 : row_to_record r with
    | error e => rw [h1] at h; cases h
    | ok rec =>
      rw [h1] at h
      cases h2 : OrderStorage.decodeRows rs with
      | error e => rw [h2] at h; cases h
      | ok recs2 =>
        rw [h2] at h
        simp at h
        subst h
        obtain ⟨hm, hl⟩ := ih recs2 h2
        obtain ⟨_, ht, _, _⟩ := row_to_record_fields r rec h1
        simp [hm, hl, ht]

/-- C5 (amended): for every non-negative limit `n`, `list_orders(n)` returns
at most `n` orders, with timestamps non-increasing from first to last.  (For
negative `n`, SQLite's `LIMIT` is unbounded — see the counterexample.) -/
theorem list_orders_spec (db : DB) (n : Int) (recs : List OrderRecord)
    (hn : 0 ≤ n) (h : OrderStorage.list_orders db n = .ok recs) :
    (recs.length : Int) ≤ n ∧
    recs.Pairwise (fun a b => b.timestamp ≤ a.timestamp) := by
  have hneg : ¬ n < 0 := by omega
  unfold OrderStorage.list_orders at h
  simp only [hneg, if_false] at h
  obtain ⟨hmap, hlen⟩ := decodeRows_map_fields _ _ h
  constructor
  · have h1 : ((db.rows.insertionSort OrderStorage.rowGE).take n.toNat).length ≤ n.toNat :=
      by simp [List.length_take]
    have h2 := Int.toNat_of_nonneg hn
    omega
  · have hsorted : (db.rows.insertionSort OrderStorage.rowGE).Pairwise OrderStorage.rowGE :=
      List.sorted_insertionSort OrderStorage.rowGE db.rows
    have htake : ((db.rows.insertionSort OrderStorage.rowGE).take n.toNat).Pairwise
        OrderStorage.rowGE :=
      hsorted.sublist (List.take_sublist n.toNat _)
    have hmapped : (((db.rows.insertionSort OrderStorage.rowGE).take n.toNat).map
        Row.timestamp).Pairwise (fun x y => y ≤ x) :=
      (List.pairwise_map).mpr htake
    rw [← hmap] at hmapped
    exact (List.pairwise_map).mp hmapped

theorem list_orders_spec_witness :
    (0 : Int) ≤ 5 ∧
    OrderStorage.list_orders ⟨[⟨1, 100, "carol", "requested", []⟩,
      ⟨2, 200, "dave", "requested", []⟩], 3⟩ 5 =
      .ok [⟨2, 200, "dave", "requested", Json.jdict []⟩,
        ⟨1, 100, "carol", "requested", Json.jdict []⟩] ∧
    ((([⟨2, 200, "dave", "requested", Json.jdict []⟩,
        ⟨1, 100, "carol", "requested", Json.jdict []⟩] : List OrderRecord).length : Int) ≤ 5 ∧
      ([⟨2, 200, "dave", "requested", Json.jdict []⟩,
        ⟨1, 100, "carol", "requested", Json.jdict []⟩] : List OrderRecord).Pairwise
        (fun a b => b.timestamp ≤ a.timestamp)) := by
  refine ⟨by decide, rfl, ?_⟩
  exact list_orders_spec ⟨[⟨1, 100, "carol", "requested", []⟩,
    ⟨2, 200, "dave", "requested", []⟩], 3⟩ 5
    [⟨2, 200, "dave", "requested", Json.jdict []⟩,
      ⟨1, 100, "carol", "requested", Json.jdict []⟩] (by decide) rfl

/-- C5 counterexample: with one stored order, `list_orders(-1)` returns one
order (SQLite treats a negative `LIMIT` as "no limit"), so the returned
sequence is not "at most `n` orders" for the integer `n = -1`. -/
theorem list_orders_neg_limit_counterexample :
    OrderStorage.list_orders ⟨[⟨1, 100, "alice", "requested", []⟩], 2⟩ (-1) =
      .ok [⟨1, 100, "alice", "requested", Json.jdict []⟩] ∧
    ¬ ((([⟨1, 100, "alice", "requested", Json.jdict []⟩] : List OrderRecord).length : Int)
        ≤ -1) := by
  refine ⟨rfl, by decide⟩

/-- C8 (amended): a row whose stored metadata blob is empty decodes to an
order with an empty metadata map rather than raising; the two count
operations never decode metadata at all, so they cannot fail on any row.
(A non-empty unparsable blob, by contrast, raises `json.JSONDecodeError` —
see the counterexample.) -/
theorem row_decode_empty_blob (r : Row) (h : r.metadata = []) :
    row_to_record r = .ok ⟨r.id, r.timestamp, r.user_id, r.status, Json.jdict []⟩ := by
  simp [row_to_record, h]

theorem row_decode_empty_blob_witness :
    (⟨1, 100, "alice", "delivered", []⟩ : Row).metadata = [] ∧
    row_to_record ⟨1, 100, "alice", "delivered", []⟩ =
      .ok ⟨1, 100, "alice", "delivered", Json.jdict []⟩ :=
  ⟨rfl, row_decode_empty_blob ⟨1, 100, "alice", "delivered", []⟩ rfl⟩

/-- C8 counterexample: a single row whose metadata blob is the non-empty,
unparsable text `corrupt` makes `get_order` (and hence any decoding read)
raise `json.JSONDecodeError` instead of decoding to an empty map. -/
theorem corrupt_blob_counterexample :
    OrderStorage.get_order
      ⟨[⟨1, 100, "alice", "requested", ['c', 'o', 'r', 'r', 'u', 'p', 't']⟩], 2⟩ 1 =
      .error .jsonDecodeError := rfl

theorem decodeRows_shape (rows : List Row) (rec : OrderRecord) (recs' : List OrderRecord)
    (h : OrderStorage.decodeRows rows = .ok (rec :: recs')) :
    ∃ r rs, rows = r :: rs ∧ row_to_record r = .ok rec ∧
      OrderStorage.decodeRows rs = .ok recs' := by
  cases rows with
  | nil => simp [OrderStorage.decodeRows] at h
  | cons r rs =>
    unfold OrderStorage.decodeRows at h
    cases h1 : row_to_record r with
    | error e => rw [h1] at h; cases h
    | ok rec0 =>
      rw [h1] at h
      cases h2 : OrderStorage.decodeRows rs with
      | error e => rw [h2] at h; cases h
      | ok recs0 =>
        rw [h2] at h
        simp at h
        obtain ⟨hrec, hrecs⟩ := h
        subst hrec
        subst hrecs
        exact ⟨r, rs, rfl, h1, h2⟩

theorem decodeRows_reserialized (status : String) (md : Json) (L : List Row) :
    OrderStorage.decodeRows (L.map (fun r =>
      (⟨r.id, r.timestamp, r.user_id, status, Json.dumps md⟩ : Row))) =
      .ok (L.map (fun r =>
        (⟨r.id, r.timestamp, r.user_id, status, md⟩ : OrderRecord))) := by
  induction L with
  | nil => rfl
  | cons r rs ih =>
    simp only [List.map_cons]
    unfold OrderStorage.decodeRows
    rw [show row_to_record ⟨r.id, r.timestamp, r.user_id, status, Json.dumps md⟩ =
      .ok ⟨r.id, r.timestamp, r.user_id, status, md⟩ from by
        simp [row_to_record, dumps_ne_nil md, Json.loads_dumps md]]
    rw [ih]

theorem update_existing_core (db : DB) (order_id : Nat) (status : String) (NM : Json)
    (r0 : Row) (rs0 : List Row)
    (hL : db.rows.filter (fun r => r.id == order_id) = r0 :: rs0) :
    OrderStorage.get_order
      ⟨db.rows.map (fun r => if r.id = order_id then
          (⟨r.id, r.timestamp, r.user_id, status, Json.dumps NM⟩ : Row) else r),
        db.next_id⟩ order_id =
      .ok (some ⟨r0.id, r0.timestamp, r0.user_id, status, NM⟩) := by
  unfold OrderStorage.get_order
  have hfm : (db.rows.map (fun r => if r.id = order_id then
      (⟨r.id, r.timestamp, r.user_id, status, Json.dumps NM⟩ : Row) else r)).filter
        (fun r => r.id == order_id) =
      (db.rows.filter (fun r => r.id == order_id)).map (fun r => if r.id = order_id then
        (⟨r.id, r.timestamp, r.user_id, status, Json.dumps NM⟩ : Row) else r) := by
    rw [List.filter_map]
    have hcong : db.rows.filter ((fun r : Row => r.id == order_id) ∘
        (fun r => if r.id = order_id then
          (⟨r.id, r.timestamp, r.user_id, status, Json.dumps NM⟩ : Row) else r)) =
        db.rows.filter (fun r => r.id == order_id) := by
      apply List.filter_congr
      intro r _
      by_cases hr : r.id = order_id
      · simp [hr]
      · simp [hr]
    rw [hcong]
  rw [hfm, hL]
  have hfix : (r0 :: rs0).map (fun r => if r.id = order_id then
      (⟨r.id, r.timestamp, r.user_id, status, Json.dumps NM⟩ : Row) else r) =
      (r0 :: rs0).map (fun r =>
        (⟨r.id, r.timestamp, r.user_id, status, Json.dumps NM⟩ : Row)) := by
    apply List.map_congr_left
    intro r hr
    have hmem : r ∈ db.rows.filter (fun r => r.id == order_id) := by
      rw [hL]; exact hr
    have : r.id = order_id := by
      have := List.of_mem_filter hmem
      simpa using this
    simp [this]
  rw [hfix, decodeRows_reserialized status NM (r0 :: rs0)]
  simp

/-- C4: updating an existing order with an allowed status replaces the
metadata with exactly the supplied map when one is given, preserves the
prior metadata when none is given, forces the new status, and leaves id,
timestamp, and user_id unchanged — both in the returned record and in the
stored row read back from storage. -/
theorem update_status_existing (db : DB) (order_id : Nat) (status : String)
    (metadata : Option Json) (ex : OrderRecord)
    (hst : status ∈ ALLOWED_STATUSES)
    (hex : OrderStorage.get_order db order_id = .ok (some ex)) :
    (OrderStorage.update_order_status db order_id status metadata).1 =
      .ok (some ⟨ex.order_id, ex.timestamp, ex.user_id, status,
        metadata.getD ex.metadata⟩) ∧
    OrderStorage.get_order
      (OrderStorage.update_order_status db order_id status metadata).2 order_id =
      .ok (some ⟨ex.order_id, ex.timestamp, ex.user_id, status,
        metadata.getD ex.metadata⟩) := by
  have hinv := hex
  unfold OrderStorage.get_order at hinv
  cases hdec : OrderStorage.decodeRows (db.rows.filter (fun r => r.id == order_id)) with
  | error e => rw [hdec] at hinv; cases hinv
  | ok recs =>
    rw [hdec] at hinv
    cases recs with
    | nil => simp at hinv
    | cons rec0 recs' =>
      simp at hinv
      subst hinv
      obtain ⟨r0, rs0, hL, hr0, hrs0⟩ := decodeRows_shape _ _ _ hdec
      obtain ⟨hid0, hts0, huid0, _⟩ := row_to_record_fields r0 rec0 hr0
      have hcore := update_existing_core db order_id status
        (metadata.getD rec0.metadata) r0 rs0 hL
      rw [← hid0, ← hts0, ← huid0] at hcore
      cases metadata with
      | none =>
        constructor
        · simp only [OrderStorage.update_order_status, hst, if_true, hex]
          rfl
        · simp only [OrderStorage.update_order_status, hst, if_true, hex]
          simpa using hcore
      | some m =>
        constructor
        · simp only [OrderStorage.update_order_status, hst, if_true, hex]
          rfl
        · simp only [OrderStorage.update_order_status, hst, if_true, hex]
          simpa using hcore

theorem update_status_existing_witness :
    "in_progress" ∈ ALLOWED_STATUSES ∧
    OrderStorage.get_order
      ⟨[⟨1, 100, "alice", "requested",
        [lbrace, '"', 'r', 'f', 'i', 'd', '"', ':', ' ', '"', 't', 'a', 'g', '-', '1',
          '"', rbrace]⟩], 2⟩ 1 =
      .ok (some ⟨1, 100, "alice", "requested", Json.jdict [("rfid", Json.jstr "tag-1")]⟩) ∧
    ((OrderStorage.update_order_status
        ⟨[⟨1, 100, "alice", "requested",
          [lbrace, '"', 'r', 'f', 'i', 'd', '"', ':', ' ', '"', 't', 'a', 'g', '-', '1',
            '"', rbrace]⟩], 2⟩ 1 "in_progress" none).1 =
      .ok (some ⟨(⟨1, 100, "alice", "requested",
          Json.jdict [("rfid", Json.jstr "tag-1")]⟩ : OrderRecord).order_id,
        (⟨1, 100, "alice", "requested",
          Json.jdict [("rfid", Json.jstr "tag-1")]⟩ : OrderRecord).timestamp,
        (⟨1, 100, "alice", "requested",
          Json.jdict [("rfid", Json.jstr "tag-1")]⟩ : OrderRecord).user_id,
        "in_progress",
        (none : Option Json).getD (⟨1, 100, "alice", "requested",
          Json.jdict [("rfid", Json.jstr "tag-1")]⟩ : OrderRecord).metadata⟩) ∧
      OrderStorage.get_order
        (OrderStorage.update_order_status
          ⟨[⟨1, 100, "alice", "requested",
            [lbrace, '"', 'r', 'f', 'i', 'd', '"', ':', ' ', '"', 't', 'a', 'g', '-', '1',
              '"', rbrace]⟩], 2⟩ 1 "in_progress" none).2 1 =
      .ok (some ⟨(⟨1, 100, "alice", "requested",
          Json.jdict [("rfid", Json.jstr "tag-1")]⟩ : OrderRecord).order_id,
        (⟨1, 100, "alice", "requested",
          Json.jdict [("rfid", Json.jstr "tag-1")]⟩ : OrderRecord).timestamp,
        (⟨1, 100, "alice", "requested",
          Json.jdict [("rfid", Json.jstr "tag-1")]⟩ : OrderRecord).user_id,
        "in_progress",
        (none : Option Json).getD (⟨1, 100, "alice", "requested",
          Json.jdict [("rfid", Json.jstr "tag-1")]⟩ : OrderRecord).metadata⟩)) :=
  ⟨by decide, rfl,
    update_status_existing
      ⟨[⟨1, 100, "alice", "requested",
        [lbrace, '"', 'r', 'f', 'i', 'd', '"', ':', ' ', '"', 't', 'a', 'g', '-', '1',
          '"', rbrace]⟩], 2⟩ 1 "in_progress" none
      ⟨1, 100, "alice", "requested", Json.jdict [("rfid", Json.jstr "tag-1")]⟩
      (by decide) rfl⟩
